import Mathlib

/-
Verification of the terminal snake game (snake.py) against its design
specification.  The game state, key handling, tick update and food
placement are embedded shallowly: Python int pairs become `Int × Int`,
the deque of body segments becomes a head-first `List`, the float tick
interval becomes an exact rational, and the random stream feeding
`random.randint` becomes an explicit oracle argument.
-/

namespace SnakeGame

/-- Grid position, an integer pair (x, y) as in the Python tuples. -/
abbrev Pos : Type := Int × Int

/-- Board width, `WIDTH = 30` in snake.py. -/
def WIDTH : Int := 30

/-- Board height, `HEIGHT = 20` in snake.py. -/
def HEIGHT : Int := 20

/-- Base tick interval, `BASE_TICK = 0.12`, modelled as the exact rational. -/
def BASE_TICK : ℚ := 12 / 100

/-- Direction vector for up, `DIR_UP = (0, -1)`. -/
def DIR_UP : Pos := (0, -1)

/-- Direction vector for down, `DIR_DOWN = (0, 1)`. -/
def DIR_DOWN : Pos := (0, 1)

/-- Direction vector for left, `DIR_LEFT = (-1, 0)`. -/
def DIR_LEFT : Pos := (-1, 0)

/-- Direction vector for right, `DIR_RIGHT = (1, 0)`. -/
def DIR_RIGHT : Pos := (1, 0)

/-- The four direction vectors of the game. -/
def dirs : List Pos := [DIR_UP, DIR_DOWN, DIR_LEFT, DIR_RIGHT]

/-- The key-normalization table `KEY_TO_DIR` of snake.py, in source order:
Windows arrow codes, ANSI arrow escape sequences, then lower- and
upper-case WASD. -/
def KEY_TO_DIR : List (String × Pos) :=
  [("H", DIR_UP), ("P", DIR_DOWN), ("K", DIR_LEFT), ("M", DIR_RIGHT),
   ("\x1b[A", DIR_UP), ("\x1b[B", DIR_DOWN), ("\x1b[D", DIR_LEFT), ("\x1b[C", DIR_RIGHT),
   ("w", DIR_UP), ("s", DIR_DOWN), ("a", DIR_LEFT), ("d", DIR_RIGHT),
   ("W", DIR_UP), ("S", DIR_DOWN), ("A", DIR_LEFT), ("D", DIR_RIGHT)]

/-- Lookup in the key table, mirroring the Python dict access
`KEY_TO_DIR[key]` guarded by `key in KEY_TO_DIR`. -/
def keyToDir (key : String) : Option Pos :=
  List.lookup key KEY_TO_DIR

/-- The function `is_opposite(a, b)` of snake.py:
`a[0] == -b[0] and a[1] == -b[1]`. -/
def is_opposite (a b : Pos) : Bool :=
  a.1 == -b.1 && a.2 == -b.2

/-- Negation of a direction vector (the "reverse" direction of the spec). -/
def reverse (d : Pos) : Pos := (-d.1, -d.2)

/-- A position lies on the board: `0 ≤ x < WIDTH` and `0 ≤ y < HEIGHT`. -/
def inBounds (p : Pos) : Prop :=
  0 ≤ p.1 ∧ p.1 < WIDTH ∧ 0 ≤ p.2 ∧ p.2 < HEIGHT

instance (p : Pos) : Decidable (inBounds p) := by
  unfold inBounds
  infer_instance

/-- An output of `random.randint(0, WIDTH - 1), random.randint(0, HEIGHT - 1)`:
`randint` is inclusive on both ends, so each draw lies in the stated range. -/
def randCell (r : Fin 30 × Fin 20) : Pos := ((r.1 : Int), (r.2 : Int))

/-- The rejection-sampling loop `place_food(snake_set)` of snake.py.  The
infinite stream of random draws is passed explicitly, and the unbounded
`while True` loop is given fuel: `none` means the loop has not returned
within `fuel` iterations. -/
def place_food (snake_set : List Pos) (stream : Nat → Fin 30 × Fin 20) :
    Nat → Option Pos
  | 0 => none
  | fuel + 1 =>
    let pos := randCell (stream 0)
    if pos ∈ snake_set then place_food snake_set (fun n => stream (n + 1)) fuel
    else some pos

/-- The mutable state of one `run_game` session: the deque `snake` (head
first), `direction`, `food`, `score` and the tick interval `tick`. -/
structure GameState where
  snake : List Pos
  direction : Pos
  food : Pos
  score : Nat
  tick : ℚ
deriving Repr, DecidableEq

/-- The ways a poll-or-tick phase can leave the session loop: keep running
with a new state, or return `(score, reason)` from `run_game`. -/
inductive StepResult where
  | over (score : Nat) (reason : String)
  | cont (s : GameState)
deriving Repr, DecidableEq

/-- The session state built at the top of `run_game`: snake of length 3 at
the board center, facing right, score 0, tick at `BASE_TICK`.  The food
cell returned by the initial `place_food` call is passed in. -/
def initState (food : Pos) : GameState :=
  { snake := [(WIDTH / 2, HEIGHT / 2), (WIDTH / 2 - 1, HEIGHT / 2), (WIDTH / 2 - 2, HEIGHT / 2)],
    direction := DIR_RIGHT,
    food := food,
    score := 0,
    tick := BASE_TICK }

/-- The direction-change rule of `run_game` (lines 184-187): a candidate
direction from the key table replaces the current direction unless it is
its exact opposite. -/
def updateDir (direction candidate : Pos) : Pos :=
  if is_opposite candidate direction then direction else candidate

/-- The key-polling phase of one loop iteration of `run_game` (lines
181-187): `q`/`Q` return `(score, "quit")`; a key present in `KEY_TO_DIR`
may change the direction; any other key (or no key) changes nothing. -/
def processKey (s : GameState) (key : Option String) : StepResult :=
  if key = some "q" ∨ key = some "Q" then StepResult.over s.score "quit"
  else
    match key with
    | some k =>
      match keyToDir k with
      | some candidate => StepResult.cont { s with direction := updateDir s.direction candidate }
      | none => StepResult.cont s
    | none => StepResult.cont s

/-- The next head position computed at the top of a tick:
current head plus current direction vector. -/
def nextHead (s : GameState) : Pos :=
  (s.snake.headI.1 + s.direction.1, s.snake.headI.2 + s.direction.2)

/-- One discrete state update of `run_game` (lines 192-212): compute the
next head; leave with `"wall"` if it is off the board, with `"self"` if it
lies on the current body; otherwise push it, and either grow and re-place
the food (eating) or pop the tail.  The cell returned by `place_food` on
an eating tick is passed in as `newFood`. -/
def tickStep (s : GameState) (newFood : Pos) : StepResult :=
  match s.snake with
  | [] => StepResult.cont s
  | head :: _ =>
    let next_head : Pos := (head.1 + s.direction.1, head.2 + s.direction.2)
    if next_head.1 < 0 ∨ WIDTH ≤ next_head.1 ∨ next_head.2 < 0 ∨ HEIGHT ≤ next_head.2 then
      StepResult.over s.score "wall"
    else if next_head ∈ s.snake then
      StepResult.over s.score "self"
    else if next_head = s.food then
      StepResult.cont
        { snake := next_head :: s.snake,
          direction := s.direction,
          food := newFood,
          score := s.score + 1,
          tick := max (5 / 100 : ℚ) (BASE_TICK - (s.score + 1 : ℚ) * (2 / 1000)) }
    else
      StepResult.cont
        { snake := (next_head :: s.snake).dropLast,
          direction := s.direction,
          food := s.food,
          score := s.score,
          tick := s.tick }

/-- The tick-interval formula of `run_game` line 210:
`max(0.05, BASE_TICK - score * 0.002)`, in exact rationals. -/
def tickInterval (score : Nat) : ℚ :=
  max (5 / 100 : ℚ) (BASE_TICK - (score : ℚ) * (2 / 1000))

/-- States a session can be in at the top of a loop iteration: the initial
state, or the image of a reachable state under the key-polling phase or a
successful tick, with the key read and the food draws arbitrary. -/
inductive Reachable : GameState → Prop where
  | init (food : Pos) : Reachable (initState food)
  | key (s : GameState) (k : Option String) (s' : GameState) :
      Reachable s → processKey s k = StepResult.cont s' → Reachable s'
  | tick (s : GameState) (newFood : Pos) (s' : GameState) :
      Reachable s → tickStep s newFood = StepResult.cont s' → Reachable s'

/-- Extract the running state, if the step did not end the session. -/
def contState : StepResult → Option GameState
  | StepResult.over _ _ => none
  | StepResult.cont s => some s

/-- Iterate the tick update `n` times with all food draws at the given
cell, stopping at the first session-ending result. -/
def stepN (foodDraw : Pos) : Nat → GameState → StepResult
  | 0, s => StepResult.cont s
  | n + 1, s =>
    match tickStep s foodDraw with
    | StepResult.cont s' => stepN foodDraw n s'
    | r => r

/-- Platform configuration relevant to input handling: the value of
`os.name` and whether the `msvcrt` and `select` imports succeeded. -/
structure Platform where
  osName : String
  msvcrtAvailable : Bool
  selectAvailable : Bool
deriving Repr, DecidableEq

/-- The startup guard of `main` (lines 220-223): print a diagnostic and
return before any session exactly when `os.name == "nt" and msvcrt is
None`. -/
def mainGuardExits (p : Platform) : Bool :=
  p.osName == "nt" && !p.msvcrtAvailable

/-- Whether `read_key` can ever deliver a key on this platform: it
dispatches on `os.name == "nt"` to `read_key_windows`, which returns
`None` when `msvcrt is None`, and otherwise to `read_key_posix`, which
returns `None` when `select is None`. -/
def hasNonBlockingInput (p : Platform) : Bool :=
  if p.osName == "nt" then p.msvcrtAvailable else p.selectAvailable

/-! ### Helper lemmas shared by several claims -/

theorem processKey_cont (s : GameState) (k : Option String) (s' : GameState)
    (h : processKey s k = StepResult.cont s') :
    s'.snake = s.snake ∧ s'.score = s.score ∧ s'.food = s.food ∧ s'.tick = s.tick := by
  unfold processKey at h
  split at h
  · exact absurd h (by simp)
  · match k with
    | none =>
      simp only at h
      cases h
      exact ⟨rfl, rfl, rfl, rfl⟩
    | some key =>
      simp only at h
      split at h <;> cases h <;> exact ⟨rfl, rfl, rfl, rfl⟩

theorem randCell_inBounds (r : Fin 30 × Fin 20) : inBounds (randCell r) := by
  have h1 := r.1.isLt
  have h2 := r.2.isLt
  simp only [inBounds, randCell, WIDTH, HEIGHT]
  omega

theorem tickStep_cont_inv (s : GameState) (f : Pos) (s' : GameState)
    (h : tickStep s f = StepResult.cont s') :
    (s.snake = [] ∧ s' = s) ∨
    (s.snake ≠ [] ∧
      ((nextHead s = s.food ∧ s'.snake = nextHead s :: s.snake ∧
          s'.score = s.score + 1 ∧
          s'.tick = max (5 / 100 : ℚ) (BASE_TICK - (s.score + 1 : ℚ) * (2 / 1000))) ∨
       (nextHead s ≠ s.food ∧ s'.snake = (nextHead s :: s.snake).dropLast ∧
          s'.score = s.score ∧ s'.tick = s.tick))) := by
  unfold tickStep at h
  match hsn : s.snake with
  | [] =>
    rw [hsn] at h
    simp only at h
    cases h
    exact Or.inl ⟨rfl, rfl⟩
  | hd :: tl =>
    rw [hsn] at h
    simp only at h
    have hnh : nextHead s = (hd.1 + s.direction.1, hd.2 + s.direction.2) := by
      simp [nextHead, hsn]
    refine Or.inr ⟨by simp [hsn], ?_⟩
    rw [← hsn] at h
    split at h
    · exact absurd h (by simp)
    · split at h
      · exact absurd h (by simp)
      · split at h
        · cases h
          exact Or.inl ⟨by rw [hnh]; assumption, by simp [hnh, hsn], rfl, rfl⟩
        · cases h
          exact Or.inr ⟨by rw [hnh]; assumption, by simp [hnh, hsn], rfl, rfl⟩

theorem nextHead_cons (hd : Pos) (tl : List Pos) (dir food : Pos) (score : Nat)
    (tick : ℚ) :
    nextHead ⟨hd :: tl, dir, food, score, tick⟩ = (hd.1 + dir.1, hd.2 + dir.2) := rfl

theorem tickStep_cons (hd : Pos) (tl : List Pos) (dir food : Pos) (score : Nat)
    (tick : ℚ) (newFood : Pos) :
    tickStep ⟨hd :: tl, dir, food, score, tick⟩ newFood =
      (if hd.1 + dir.1 < 0 ∨ WIDTH ≤ hd.1 + dir.1 ∨
          hd.2 + dir.2 < 0 ∨ HEIGHT ≤ hd.2 + dir.2 then
        StepResult.over score "wall"
      else if (hd.1 + dir.1, hd.2 + dir.2) ∈ hd :: tl then
        StepResult.over score "self"
      else if (hd.1 + dir.1, hd.2 + dir.2) = food then
        StepResult.cont ⟨(hd.1 + dir.1, hd.2 + dir.2) :: hd :: tl, dir, newFood, score + 1,
          max (5 / 100 : ℚ) (BASE_TICK - (score + 1 : ℚ) * (2 / 1000))⟩
      else
        StepResult.cont ⟨((hd.1 + dir.1, hd.2 + dir.2) :: hd :: tl).dropLast,
          dir, food, score, tick⟩) := rfl

/-! ### Claim theorems -/

/-- C5: for every current direction among the four unit vectors,
`is_opposite d d` is false and `is_opposite d (reverse d)` is true, and
the direction-change rule of the loop leaves the direction unchanged when
the submitted direction is the exact opposite, while any other submitted
direction (the same one or a perpendicular one) replaces it. -/
theorem direction_update_rule :
    (∀ d ∈ dirs, is_opposite d d = false) ∧
    (∀ d ∈ dirs, is_opposite d (reverse d) = true) ∧
    (∀ d ∈ dirs, updateDir d (reverse d) = d) ∧
    (∀ d ∈ dirs, ∀ c ∈ dirs, c ≠ reverse d → updateDir d c = c) := by
  decide

/-- C5 witness: concrete instances on the right direction. -/
theorem direction_update_rule_witness :
    is_opposite DIR_RIGHT DIR_RIGHT = false ∧
    updateDir DIR_RIGHT (reverse DIR_RIGHT) = DIR_RIGHT ∧
    updateDir DIR_RIGHT DIR_UP = DIR_UP :=
  ⟨direction_update_rule.1 DIR_RIGHT (by decide),
   direction_update_rule.2.2.1 DIR_RIGHT (by decide),
   direction_update_rule.2.2.2 DIR_RIGHT (by decide) DIR_UP (by decide) (by decide)⟩

/-- C8: the key table sends `w`/`W` to up, `s`/`S` to down, `a`/`A` to
left, `d`/`D` to right, the Windows (`H`/`P`/`K`/`M`) and ANSI
(`ESC [ A` …) arrow codes to the same four directions; `q`/`Q` end the
session with reason `"quit"`; and any key outside the table — as well as
an empty poll — leaves the whole game state unchanged. -/
theorem key_normalization :
    (keyToDir "w" = some DIR_UP ∧ keyToDir "W" = some DIR_UP ∧
     keyToDir "s" = some DIR_DOWN ∧ keyToDir "S" = some DIR_DOWN ∧
     keyToDir "a" = some DIR_LEFT ∧ keyToDir "A" = some DIR_LEFT ∧
     keyToDir "d" = some DIR_RIGHT ∧ keyToDir "D" = some DIR_RIGHT) ∧
    (keyToDir "H" = some DIR_UP ∧ keyToDir "P" = some DIR_DOWN ∧
     keyToDir "K" = some DIR_LEFT ∧ keyToDir "M" = some DIR_RIGHT ∧
     keyToDir "\x1b[A" = some DIR_UP ∧ keyToDir "\x1b[B" = some DIR_DOWN ∧
     keyToDir "\x1b[D" = some DIR_LEFT ∧ keyToDir "\x1b[C" = some DIR_RIGHT) ∧
    (∀ s : GameState, processKey s (some "q") = StepResult.over s.score "quit" ∧
      processKey s (some "Q") = StepResult.over s.score "quit") ∧
    (∀ (s : GameState) (k : String), k ≠ "q" → k ≠ "Q" → keyToDir k = none →
      processKey s (some k) = StepResult.cont s) ∧
    (∀ s : GameState, processKey s none = StepResult.cont s) := by
  refine ⟨by decide, by decide, ?_, ?_, ?_⟩
  · intro s
    constructor <;> simp [processKey]
  · intro s k hq hQ hnone
    simp [processKey, hq, hQ, hnone]
  · intro s
    simp [processKey]

/-- C8 witness: the unmapped key `x` leaves the state unchanged. -/
theorem key_normalization_witness :
    processKey (initState (0, 0)) (some "x") = StepResult.cont (initState (0, 0)) :=
  key_normalization.2.2.2.1 (initState (0, 0)) "x" (by decide) (by decide) (by decide)

/-- C9 counterexample: on a non-Windows platform where the `select`
module (and `msvcrt`) is unavailable, no non-blocking input mechanism
exists, yet the startup guard of `main` does not fire, so a session
starts anyway — refuting the claim that every input-less configuration
exits before gameplay. -/
theorem startup_guard_counterexample :
    hasNonBlockingInput ⟨"posix", false, false⟩ = false ∧
    mainGuardExits ⟨"posix", false, false⟩ = false := by
  decide

/-- C9 amended: the diagnostic-and-exit guard of `main` fires exactly
when `os.name` is `"nt"` and `msvcrt` is unavailable; availability of
non-blocking input on other platforms plays no role in it. -/
theorem startup_guard_amended (p : Platform) :
    mainGuardExits p = true ↔ p.osName = "nt" ∧ p.msvcrtAvailable = false := by
  simp [mainGuardExits]

/-- C9 witness: the guard fires on Windows without `msvcrt`. -/
theorem startup_guard_amended_witness :
    mainGuardExits ⟨"nt", false, true⟩ = true :=
  (startup_guard_amended ⟨"nt", false, true⟩).mpr ⟨rfl, rfl⟩

/-- C1: during a tick of a state whose body cells all lie on the board,
if the next head position lies on any cell of the pre-update body the
tick returns `(score, "self")`; in particular this holds when the next
head is exactly the current tail cell of a non-eating tick, even though
that cell would be vacated by the pop. -/
theorem self_collision_pre_update :
    (∀ (s : GameState) (newFood : Pos),
      (∀ p ∈ s.snake, inBounds p) →
      nextHead s ∈ s.snake →
      tickStep s newFood = StepResult.over s.score "self") ∧
    (∀ (s : GameState) (newFood : Pos) (hne : s.snake ≠ []),
      (∀ p ∈ s.snake, inBounds p) →
      nextHead s ≠ s.food →
      nextHead s = s.snake.getLast hne →
      tickStep s newFood = StepResult.over s.score "self") := by
  have general : ∀ (s : GameState) (newFood : Pos),
      (∀ p ∈ s.snake, inBounds p) → nextHead s ∈ s.snake →
      tickStep s newFood = StepResult.over s.score "self" := by
    intro s newFood hin hmem
    obtain ⟨snake, dir, food, score, tick⟩ := s
    cases snake with
    | nil => cases hmem
    | cons hd tl =>
      rw [nextHead_cons] at hmem
      obtain ⟨hb1, hb2, hb3, hb4⟩ := hin _ hmem
      replace hb1 : 0 ≤ hd.1 + dir.1 := hb1
      replace hb2 : hd.1 + dir.1 < WIDTH := hb2
      replace hb3 : 0 ≤ hd.2 + dir.2 := hb3
      replace hb4 : hd.2 + dir.2 < HEIGHT := hb4
      rw [tickStep_cons,
        if_neg (by push_neg; exact ⟨hb1, hb2, hb3, hb4⟩), if_pos hmem]
  refine ⟨general, ?_⟩
  intro s newFood hne hin _ htail
  exact general s newFood hin (htail ▸ s.snake.getLast_mem hne)

/-- C1 witness: a snake whose head turns left onto its own tail cell,
with the food elsewhere, dies with `"self"`. -/
theorem self_collision_pre_update_witness :
    tickStep
      { snake := [(6, 5), (6, 6), (5, 6), (5, 5)],
        direction := DIR_LEFT, food := (0, 0), score := 0, tick := BASE_TICK }
      (1, 1) = StepResult.over 0 "self" :=
  self_collision_pre_update.2
    { snake := [(6, 5), (6, 6), (5, 6), (5, 5)],
      direction := DIR_LEFT, food := (0, 0), score := 0, tick := BASE_TICK }
    (1, 1) (by decide) (by decide) (by decide) (by decide)

/-- C3: a tick that neither eats nor collides keeps the length, puts the
old head plus the direction vector at the front, drops the old tail
element, and shifts every other segment one position toward the tail:
the new body is exactly the next head consed onto the old body without
its last element. -/
theorem non_eating_tick_shape (s : GameState) (newFood : Pos)
    (hne : s.snake ≠ [])
    (hw : inBounds (nextHead s))
    (hself : nextHead s ∉ s.snake)
    (hfood : nextHead s ≠ s.food) :
    tickStep s newFood =
      StepResult.cont
        { s with snake := nextHead s :: s.snake.dropLast } ∧
    (nextHead s :: s.snake.dropLast).length = s.snake.length ∧
    (nextHead s :: s.snake.dropLast).headI =
      (s.snake.headI.1 + s.direction.1, s.snake.headI.2 + s.direction.2) ∧
    (nextHead s :: s.snake.dropLast).tail = s.snake.dropLast := by
  refine ⟨?_, ?_, rfl, rfl⟩
  · obtain ⟨snake, dir, food, score, tick⟩ := s
    cases snake with
    | nil => exact absurd rfl hne
    | cons hd tl =>
      rw [nextHead_cons] at hself hfood
      obtain ⟨hb1, hb2, hb3, hb4⟩ := hw
      replace hb1 : 0 ≤ hd.1 + dir.1 := hb1
      replace hb2 : hd.1 + dir.1 < WIDTH := hb2
      replace hb3 : 0 ≤ hd.2 + dir.2 := hb3
      replace hb4 : hd.2 + dir.2 < HEIGHT := hb4
      rw [tickStep_cons,
        if_neg (by push_neg; exact ⟨hb1, hb2, hb3, hb4⟩),
        if_neg hself, if_neg hfood,
        List.dropLast_cons_of_ne_nil (List.cons_ne_nil hd tl), nextHead_cons]
  · have hlen : 0 < s.snake.length := List.length_pos.mpr hne
    simp only [List.length_cons, List.length_dropLast]
    omega

/-- C3 witness: the very first tick of the standard session with the food
out of the way. -/
theorem non_eating_tick_shape_witness :
    tickStep (initState (0, 0)) (1, 1) =
      StepResult.cont
        { initState (0, 0) with
            snake := nextHead (initState (0, 0)) :: (initState (0, 0)).snake.dropLast } ∧
    (nextHead (initState (0, 0)) :: (initState (0, 0)).snake.dropLast).length =
      (initState (0, 0)).snake.length ∧
    (nextHead (initState (0, 0)) :: (initState (0, 0)).snake.dropLast).headI =
      ((initState (0, 0)).snake.headI.1 + (initState (0, 0)).direction.1,
       (initState (0, 0)).snake.headI.2 + (initState (0, 0)).direction.2) ∧
    (nextHead (initState (0, 0)) :: (initState (0, 0)).snake.dropLast).tail =
      (initState (0, 0)).snake.dropLast :=
  non_eating_tick_shape (initState (0, 0)) (1, 1)
    (by decide) (by decide) (by decide) (by decide)

/-- C4: at every reachable loop-top state of a session, the body length
is the initial length 3 plus the current score — key polling never
touches the body or score, an eating tick adds one to each, and any
other tick changes neither. -/
theorem snake_length_invariant (s : GameState) (h : Reachable s) :
    s.snake.length = 3 + s.score := by
  induction h with
  | init food => rfl
  | key s k s' _ hstep ih =>
    obtain ⟨h1, h2, _, _⟩ := processKey_cont _ _ _ hstep
    rw [h1, h2]
    exact ih
  | tick s newFood s' _ hstep ih =>
    rcases tickStep_cont_inv _ _ _ hstep with ⟨_, rfl⟩ |
      ⟨hne, ⟨_, hsn, hsc, _⟩ | ⟨_, hsn, hsc, _⟩⟩
    · exact ih
    · rw [hsn, hsc, List.length_cons, ih]
      omega
    · have hlen : 0 < s.snake.length := List.length_pos.mpr hne
      rw [hsn, hsc, List.dropLast_cons_of_ne_nil hne, List.length_cons,
        List.length_dropLast]
      omega

/-- C4 witness: the invariant at the initial state. -/
theorem snake_length_invariant_witness :
    (initState (0, 0)).snake.length = 3 + (initState (0, 0)).score :=
  snake_length_invariant (initState (0, 0)) (Reachable.init (0, 0))

/-- C6: in every reachable state the tick interval equals
`max(0.05, 0.12 − score · 0.002)` (in exact rationals) for the current
score; this formula is monotonically non-increasing in the score and
never drops below the minimum `0.05`. -/
theorem tick_interval_spec :
    (∀ s : GameState, Reachable s → s.tick = tickInterval s.score) ∧
    (∀ a b : Nat, a ≤ b → tickInterval b ≤ tickInterval a) ∧
    (∀ n : Nat, (5 / 100 : ℚ) ≤ tickInterval n) := by
  refine ⟨?_, ?_, fun n => le_max_left _ _⟩
  · intro s h
    induction h with
    | init food =>
      show BASE_TICK = tickInterval 0
      rw [tickInterval, Nat.cast_zero, zero_mul, sub_zero,
        max_eq_right (by norm_num [BASE_TICK])]
    | key s k s' _ hstep ih =>
      obtain ⟨_, h2, _, h4⟩ := processKey_cont _ _ _ hstep
      rw [h2, h4]
      exact ih
    | tick s newFood s' _ hstep ih =>
      rcases tickStep_cont_inv _ _ _ hstep with ⟨_, rfl⟩ |
        ⟨_, ⟨_, _, hsc, htick⟩ | ⟨_, _, hsc, htick⟩⟩
      · exact ih
      · rw [htick, hsc, tickInterval]
        push_cast
        ring_nf
      · rw [htick, hsc]
        exact ih
  · intro a b hab
    unfold tickInterval
    refine max_le_max le_rfl (sub_le_sub_left ?_ _)
    have : (a : ℚ) ≤ (b : ℚ) := by exact_mod_cast hab
    nlinarith

/-- C6 witness: concrete instances of all three parts. -/
theorem tick_interval_spec_witness :
    (initState (0, 0)).tick = tickInterval (initState (0, 0)).score ∧
    tickInterval 2 ≤ tickInterval 1 ∧
    (5 / 100 : ℚ) ≤ tickInterval 7 :=
  ⟨tick_interval_spec.1 (initState (0, 0)) (Reachable.init (0, 0)),
   tick_interval_spec.2.1 1 2 (by decide),
   tick_interval_spec.2.2 7⟩

/-- C2: on the 30×20 grid the session starts with body
(15,10),(14,10),(13,10) facing right; one non-eating tick yields
(16,10),(15,10),(14,10); with the food off the path every tick up to the
14th keeps the session running, the 14th leaves the head at (29,10), and
the next tick — the first whose next head has x = 30, failing
`next_head.x < WIDTH` — ends the session with `(0, "wall")`. -/
theorem wall_scenario :
    (initState (0, 0)).snake = [(15, 10), (14, 10), (13, 10)] ∧
    (initState (0, 0)).direction = DIR_RIGHT ∧
    (contState (stepN (0, 0) 1 (initState (0, 0)))).map GameState.snake =
      some [(16, 10), (15, 10), (14, 10)] ∧
    (∀ k : Nat, k ≤ 14 →
      (contState (stepN (0, 0) k (initState (0, 0)))).isSome = true) ∧
    (contState (stepN (0, 0) 14 (initState (0, 0)))).map
      (fun s => s.snake.headI) = some (29, 10) ∧
    stepN (0, 0) 15 (initState (0, 0)) = StepResult.over 0 "wall" := by
  refine ⟨by decide, by decide, by decide, by decide, by decide, by decide⟩

/-- C2 witness: the session is still running after three ticks. -/
theorem wall_scenario_witness :
    (contState (stepN (0, 0) 3 (initState (0, 0)))).isSome = true :=
  wall_scenario.2.2.2.1 3 (by decide)

/-- C7: whenever the rejection-sampling loop of `place_food` returns on a
snake set covering at most WIDTH×HEIGHT−1 cells, the returned position is
on the board and is not occupied by the snake. -/
theorem place_food_free (snake_set : List Pos) (stream : Nat → Fin 30 × Fin 20)
    (fuel : Nat) (p : Pos)
    (hcover : snake_set.toFinset.card ≤ 30 * 20 - 1)
    (h : place_food snake_set stream fuel = some p) :
    inBounds p ∧ p ∉ snake_set := by
  induction fuel generalizing stream with
  | zero => exact absurd h (by simp [place_food])
  | succ n ih =>
    rw [place_food] at h
    by_cases hc : randCell (stream 0) ∈ snake_set
    · rw [if_pos hc] at h
      exact ih _ h
    · rw [if_neg hc] at h
      cases h
      exact ⟨randCell_inBounds _, hc⟩

/-- C7 witness: with the single-cell body {(1,1)} and a stream starting
at (0,0), the loop returns (0,0), which is on the board and free. -/
theorem place_food_free_witness :
    inBounds ((0 : Int), (0 : Int)) ∧ ((0 : Int), (0 : Int)) ∉ [((1 : Int), (1 : Int))] :=
  place_food_free [((1 : Int), (1 : Int))] (fun _ => ((0 : Fin 30), (0 : Fin 20)))
    1 ((0 : Int), (0 : Int)) (by decide) (by decide)

/-- Every on-board position occurs in this enumeration of the whole grid. -/
def allCells : List Pos :=
  (List.finRange 30).flatMap (fun x => (List.finRange 20).map (fun y => randCell (x, y)))

theorem mem_allCells (p : Pos) (hp : inBounds p) : p ∈ allCells := by
  obtain ⟨h1, h2, h3, h4⟩ := hp
  rw [WIDTH] at h2
  rw [HEIGHT] at h4
  refine List.mem_flatMap.mpr ⟨⟨p.1.toNat, by omega⟩, List.mem_finRange _, ?_⟩
  refine List.mem_map.mpr ⟨⟨p.2.toNat, by omega⟩, List.mem_finRange _, ?_⟩
  simp only [randCell]
  rw [Int.toNat_of_nonneg h1, Int.toNat_of_nonneg h3]

/-- C10: when the snake set holds every grid cell, `place_food` rejects
every candidate of every possible random stream, so the loop never
returns — for any amount of fuel the result is still `none`. -/
theorem place_food_full_grid_diverges (snake_set : List Pos)
    (hfull : ∀ p : Pos, inBounds p → p ∈ snake_set)
    (stream : Nat → Fin 30 × Fin 20) (fuel : Nat) :
    place_food snake_set stream fuel = none := by
  induction fuel generalizing stream with
  | zero => rfl
  | succ n ih =>
    rw [place_food, if_pos (hfull _ (randCell_inBounds _))]
    exact ih _

/-- C10 witness: on the full-grid body no fuel ever suffices. -/
theorem place_food_full_grid_diverges_witness :
    place_food allCells (fun _ => ((0 : Fin 30), (0 : Fin 20))) 5 = none :=
  place_food_full_grid_diverges allCells (fun p hp => mem_allCells p hp)
    (fun _ => ((0 : Fin 30), (0 : Fin 20))) 5

end SnakeGame
